import Mathlib

/-!
Verification of the escape-room availability watcher
(`src/escape_availability.js`, current revision: the second document in the
file, lines 172-503).  The JavaScript is shallowly embedded: each JS function
relevant to the claims becomes an executable Lean definition over explicit
inputs (page observations, schedules, jitter streams), and the claims are
settled as theorems about those definitions.
-/

/- ====================================================================
   Global rate limiter (`enforceGlobalRateLimit`, lines 199-210).

     let _lastRequestAt = 0;
     async function enforceGlobalRateLimit() {
       if (GLOBAL_MIN_REQUEST_INTERVAL_MS <= 0) return;
       const now = Date.now();
       const nextAllowed = _lastRequestAt + GLOBAL_MIN_REQUEST_INTERVAL_MS;
       if (now < nextAllowed) {
         const wait = nextAllowed - now;
         await sleep(wait);
       }
       _lastRequestAt = Date.now();
     }

   The embedding makes the single suspension point (`await sleep(wait)`)
   explicit: a call either completes in one atomic step (no wait needed:
   the async body runs without suspension from the read of `_lastRequestAt`
   to its write), or it suspends with a recorded wake deadline and performs
   the write `_lastRequestAt = Date.now()` in a second atomic step when the
   timer fires.  A schedule interleaves these steps across callers; a
   schedule is valid when times are monotone and each wake step fires
   exactly at the sleeping caller's recorded deadline.
   ==================================================================== -/

/-- Phase of one `enforceGlobalRateLimit` caller: not yet started, suspended
in `await sleep` until the recorded wake time, or returned at the recorded
release time. -/
inductive GPhase where
  | idle
  | sleeping (wake : Nat)
  | done (released : Nat)
deriving DecidableEq

/-- Shared state: the module-level `_lastRequestAt` plus the phase of every
caller (indexed by position in the list). -/
structure GateState where
  last : Nat
  callers : List GPhase
deriving DecidableEq

/-- One scheduler event: caller `cid` enters `enforceGlobalRateLimit` at
wall-clock `now`, or caller `cid`'s sleep timer fires at `now`. -/
inductive GAct where
  | begin (cid : Nat) (now : Nat)
  | wake (cid : Nat) (now : Nat)
deriving DecidableEq

def setPhase (cs : List GPhase) (cid : Nat) (p : GPhase) : List GPhase :=
  cs.set cid p

/-- Execute one event against the shared state, mirroring the JS body.  On
`begin`: if the interval is zero the call returns at once without touching
`_lastRequestAt`; if `now < _lastRequestAt + I` the caller suspends until
`_lastRequestAt + I` (the read happened, the write has not); otherwise the
read and the write happen in the same step (no `await` separates them in the
JS) and the caller returns at `now`.  On `wake`: the caller performs the
deferred `_lastRequestAt = Date.now()` and returns, without re-checking the
interval. -/
def gateStep (I : Nat) (s : GateState) (a : GAct) : GateState :=
  match a with
  | .begin cid now =>
    match s.callers.get? cid with
    | some .idle =>
      if I = 0 then ⟨s.last, setPhase s.callers cid (.done now)⟩
      else if now < s.last + I then ⟨s.last, setPhase s.callers cid (.sleeping (s.last + I))⟩
      else ⟨now, setPhase s.callers cid (.done now)⟩
    | _ => s
  | .wake cid now =>
    match s.callers.get? cid with
    | some (.sleeping w) =>
      if w = now then ⟨now, setPhase s.callers cid (.done now)⟩ else s
    | _ => s

def gateRun (I : Nat) (s : GateState) (acts : List GAct) : GateState :=
  acts.foldl (gateStep I) s

/-- A schedule is valid from state `s` at time `t` when event times never
decrease, `begin` is only delivered to an idle caller, and every `wake`
fires exactly at the recorded deadline of a sleeping caller. -/
def validFrom (I : Nat) : GateState → Nat → List GAct → Bool
  | _, _, [] => true
  | s, t, .begin cid now :: rest =>
    decide (t ≤ now) && decide (s.callers.get? cid = some GPhase.idle)
      && validFrom I (gateStep I s (.begin cid now)) now rest
  | s, t, .wake cid now :: rest =>
    decide (t ≤ now) && decide (s.callers.get? cid = some (GPhase.sleeping now))
      && validFrom I (gateStep I s (.wake cid now)) now rest

/-- Wall-clock times at which the finished callers were released. -/
def releasedTimes (s : GateState) : List Nat :=
  s.callers.filterMap fun p =>
    match p with
    | .done r => some r
    | _ => none

/-- The spec's rate-limiter property: release times pairwise separated by at
least the configured interval. -/
def PairwiseSeparated (I : Nat) (rs : List Nat) : Prop :=
  List.Pairwise (fun a b => a + I ≤ b ∨ b + I ≤ a) rs

/-- The concurrent schedule exhibiting the race: caller 0 is released at
t = 2000 and stamps the timestamp; callers 1 and 2 then both read the same
stamp 2000 before either writes, both sleep until 3500, and both are
released at t = 3500. -/
def raceSched : List GAct :=
  [.begin 0 2000, .begin 1 2100, .begin 2 2200, .wake 1 3500, .wake 2 3500]

def raceStart : GateState := ⟨0, [.idle, .idle, .idle]⟩

/- ====================================================================
   Retry executor (`withRetries`, lines 255-268).

     async function withRetries(fn, attempts = 3, baseDelay = 1000) {
       for (let attempt = 1; attempt <= attempts; attempt++) {
         try { return await fn(); }
         catch (err) {
           if (attempt === attempts) throw err;
           const wait = baseDelay * Math.pow(2, attempt - 1) + randomInt(500);
           console.warn(...);
           await sleep(wait);
         }
       }
     }

   `op attempt` is the outcome of the `attempt`-th invocation of `fn`
   (1-based), `jit attempt` the value drawn by `randomInt(500)` before the
   sleep that follows a failed `attempt` (so `jit attempt < 500`).  The
   embedding returns the function result (`none` models the `undefined`
   returned when `attempts = 0` and the loop body never runs) together with
   the list of backoff waits performed, in order.
   ==================================================================== -/

def runRetries {ε α : Type} (op : Nat → Except ε α) (jit : Nat → Nat)
    (baseDelay : Nat) : Nat → Nat → Option (Except ε α) × List Nat
  | _, 0 => (none, [])
  | attempt, remaining + 1 =>
    match op attempt with
    | .ok v => (some (.ok v), [])
    | .error e =>
      if remaining = 0 then (some (.error e), [])
      else
        let wait := baseDelay * 2 ^ (attempt - 1) + jit attempt
        let r := runRetries op jit baseDelay (attempt + 1) remaining
        (r.1, wait :: r.2)

def withRetries {ε α : Type} (op : Nat → Except ε α) (jit : Nat → Nat)
    (attempts baseDelay : Nat) : Option (Except ε α) × List Nat :=
  runRetries op jit baseDelay 1 attempts

/- ====================================================================
   Day prober + resource scanner (`checkRoomAvailability`, lines 282-429).

   The interactive page is abstracted as per-run observations:
   - `navOk i`        : whether the `i`-th `page.goto` attempt succeeds;
   - `calendarAppears`: whether `page.waitForSelector(dateCellSelector, ...)`
                        sees one of the calendar-indicating selectors before
                        `CALENDAR_WAIT_TIMEOUT_MS`;
   - `initialHTML`    : the `.time-selection` innerHTML read before the day
                        loop (`none` models a rejected `$eval`, caught and
                        replaced by `""`);
   - `dates o`        : the calendar date `today + o` (JS `Date` arithmetic
                        is external);
   - `days o`         : what the page exposes for the day at offset `o`.

   Each loop iteration is additionally logged into an event trace so that
   ordering claims (baseline read before click; one probe per offset) are
   about the code's event order, not just its final value.
   ==================================================================== -/

/-- One `.time-selection li` element: its two filtered class markers and its
raw `textContent`. -/
structure SlotItem where
  disabled : Bool
  danger : Bool
  text : String
deriving DecidableEq

/-- `startsWithList p l` : the char list `p` is an initial segment of `l`.  -/
def startsWithList : List Char → List Char → Bool
  | [], _ => true
  | _ :: _, [] => false
  | a :: as, b :: bs => a == b && startsWithList as bs

/-- `hasInfixList p l` : the char list `p` occurs contiguously inside `l`
(JS `String.prototype.includes`). -/
def hasInfixList (pat : List Char) : List Char → Bool
  | [] => startsWithList pat []
  | c :: rest => startsWithList pat (c :: rest) || hasInfixList pat rest

def strContains (s pat : String) : Bool :=
  hasInfixList pat.toList s.toList

/-- Whitespace for JS `String.prototype.trim` (ASCII subset). -/
def isSpaceChar (c : Char) : Bool :=
  c == ' ' || c == '\t' || c == '\n' || c == '\r'

/-- JS `text.trim()`: strip whitespace from both ends. -/
def strTrim (s : String) : String :=
  ⟨((s.toList.dropWhile isSpaceChar).reverse.dropWhile isSpaceChar).reverse⟩

/-- JS `text.toLowerCase()` (ASCII letters). -/
def strLower (s : String) : String :=
  ⟨s.toList.map Char.toLower⟩

/-- JS `text.slice(0, n)`. -/
def strTake (s : String) (n : Nat) : String :=
  ⟨s.toList.take n⟩

/-- The scrape filter (lines 399-406): keep an `li` unless it carries the
`disabled` or `list-group-item-danger` class, its trimmed lower-cased text
contains "not available", or its trimmed text is empty. -/
def keepSlot (li : SlotItem) : Bool :=
  !li.disabled && !li.danger
    && !(strContains (strLower (strTrim li.text)) "not available")
    && decide (0 < (strTrim li.text).length)

/-- SlotLabel extraction (line 408): `textContent.trim().slice(0, 5)`. -/
def slotLabel (li : SlotItem) : String :=
  strTake (strTrim li.text) 5

def extractSlots (items : List SlotItem) : List String :=
  (items.filter keepSlot).map slotLabel

/-- A calendar date as the three numeric components the code formats. -/
structure DateTriple where
  day : Nat
  month : Nat
  year : Nat
deriving DecidableEq

/-- Two-digit zero padding, as produced by
`Intl.DateTimeFormat("en-GB", ... "2-digit" ...)` for day and month. -/
def pad2 (n : Nat) : String :=
  if n < 10 then "0" ++ Nat.repr n else Nat.repr n

/-- The DateKey `dateStr` (lines 325-330): zero-padded day, zero-padded
month, numeric year, joined by "/". -/
def dateKey (d : DateTriple) : String :=
  pad2 d.day ++ "/" ++ pad2 d.month ++ "/" ++ Nat.repr d.year

/-- Page observations for the day at one offset. -/
structure DayInfo where
  present : Bool
  disabled : Bool
  clickOk : Nat → Bool
  changed : Bool
  html : Option String
  items : List SlotItem

/-- Page observations for one whole `checkRoomAvailability` run. -/
structure RoomEnv where
  navOk : Nat → Bool
  navJit : Nat → Nat
  calendarAppears : Bool
  initialHTML : Option String
  daysAhead : Nat
  dates : Nat → DateTriple
  days : Nat → DayInfo
  clickJit : Nat → Nat

/-- Events of one scan, in program order.  `probe o` marks the start of the
loop iteration for offset `o` (the `page.$(daySelector)` lookup);
`readHTML c` is a `$eval(".time-selection", innerHTML)` returning `c`
(after the catch-to-"" default); `click o` is a successful day-selection
click; `waitChange o b` is the `waitForFunction` poll for offset `o` whose
baseline argument is `b`; `scrape o s` is the slot extraction. -/
inductive Ev where
  | probe (offset : Nat)
  | readHTML (content : String)
  | click (offset : Nat)
  | waitChange (offset : Nat) (baseline : String)
  | scrape (offset : Nat) (slots : List String)
deriving DecidableEq

/-- Loop state: `lastKnownTimeHTML`, the accumulated availability map
(an insertion-ordered association list, as a JS object), and the trace. -/
structure ScanSt where
  lastHTML : String
  avail : List (String × List String)
  trace : List Ev

def clickOp (d : DayInfo) (i : Nat) : Except Unit Unit :=
  if d.clickOk i then .ok () else .error ()

/-- Whether `withRetries(() => dayElement.click(), 2, 300)` (line 365)
succeeds within its 2-attempt budget. -/
def clickSucceeds (d : DayInfo) (jit : Nat → Nat) : Bool :=
  match (withRetries (clickOp d) jit 2 300).1 with
  | some (.ok _) => true
  | _ => false

/-- One iteration of the day loop (lines 320-426).  A missing day element, a
disabled/unavailable day, or a click that still fails after its retry budget
each hit a `continue`: no entry is written, no error escapes, and the loop
state is otherwise untouched.  On the success path the code clicks, waits
for the content to differ from `lastKnownTimeHTML`, re-reads the content as
the next baseline, scrapes, and records the slots under the day's DateKey
only when the filtered list is non-empty. -/
def processDay (env : RoomEnv) (offset : Nat) (st : ScanSt) : ScanSt :=
  let d := env.days offset
  let probed : ScanSt := ⟨st.lastHTML, st.avail, st.trace ++ [Ev.probe offset]⟩
  if d.present = false then probed
  else if d.disabled = true then probed
  else if clickSucceeds d env.clickJit = false then probed
  else
    let newHTML := d.html.getD ""
    let slots := extractSlots d.items
    ⟨newHTML,
      if 0 < slots.length then probed.avail ++ [(dateKey (env.dates offset), slots)]
      else probed.avail,
      probed.trace ++ [Ev.click offset, Ev.waitChange offset st.lastHTML,
        Ev.readHTML newHTML, Ev.scrape offset slots]⟩

/-- The day loop `for (let offset = 0; offset <= DAYS_AHEAD; offset++)`.
`fuel` is the remaining iteration budget; the loop is entered with
`daysAhead + 1`, which is exactly the number of times the guard
`offset <= DAYS_AHEAD` succeeds from `offset = 0`, so the fuel never runs
out before the guard fails. -/
def scanLoop (env : RoomEnv) : Nat → Nat → ScanSt → ScanSt
  | 0, _, st => st
  | fuel + 1, offset, st =>
    if offset ≤ env.daysAhead then scanLoop env fuel (offset + 1) (processDay env offset st)
    else st

/-- State before the day loop: `lastKnownTimeHTML` seeded by the pre-loop
`$eval` (lines 316-318), empty map, and that read logged. -/
def initSt (env : RoomEnv) : ScanSt :=
  ⟨env.initialHTML.getD "", [], [Ev.readHTML (env.initialHTML.getD "")]⟩

def scanRun (env : RoomEnv) : ScanSt :=
  scanLoop env (env.daysAhead + 1) 0 (initSt env)

def navAttempt (env : RoomEnv) (i : Nat) : Except Unit Unit :=
  if env.navOk i then .ok () else .error ()

/-- `checkRoomAvailability` (lines 282-429): navigation through
`withRetries(..., 3, 2000)` — whole-scan failure when every attempt fails;
then the calendar-appearance wait whose timeout is caught and answered with
an empty map (`return {}` on line 309); otherwise the day loop. -/
def checkRoomAvailability (env : RoomEnv) : Except Unit (List (String × List String)) :=
  match (withRetries (navAttempt env) env.navJit 3 2000).1 with
  | some (.ok _) =>
    if env.calendarAppears then .ok (scanRun env).avail else .ok []
  | _ => .error ()

/-- Offsets probed by the day loop, in order. -/
def probeOf : Ev → Option Nat
  | .probe o => some o
  | _ => none

def probeOffsets (t : List Ev) : List Nat :=
  t.filterMap probeOf

/- ====================================================================
   Orchestrator (`processRoom` lines 432-463, main lines 466-503).

   `processRoom` staggers, launches an isolated browser, runs
   `checkRoomAvailability` under `withRetries(..., 2, 1000)`, and converts
   any escaped fault into `availability = null` — the Failed sentinel.
   `Promise.all(rooms.map(room => limit(() => processRoom(room, limit))))`
   returns results in input order.  `launchOk` abstracts the
   stagger/launch/newPage part of the `try` block; `scan i` is the result
   of the `i`-th whole-scan attempt.
   ==================================================================== -/

structure Room where
  name : String
  url : String
deriving DecidableEq

inductive ScanOutcome where
  | found (a : List (String × List String))
  | failed
deriving DecidableEq

structure RoomRun where
  launchOk : Bool
  scan : Nat → Except Unit (List (String × List String))
  jit : Nat → Nat

def processRoom (room : Room) (run : RoomRun) : String × ScanOutcome :=
  if run.launchOk = false then (room.name, .failed)
  else
    match (withRetries run.scan run.jit 2 1000).1 with
    | some (.ok a) => (room.name, .found a)
    | _ => (room.name, .failed)

def runAllFrom (env : Nat → RoomRun) : Nat → List Room → List (String × ScanOutcome)
  | _, [] => []
  | i, r :: rs => processRoom r (env i) :: runAllFrom env (i + 1) rs

def runAll (rooms : List Room) (env : Nat → RoomRun) : List (String × ScanOutcome) :=
  runAllFrom env 0 rooms

/- ====================================================================
   Reporter (main, lines 480-494).

     for (const { roomName, availability } of results) {
       if (!availability || Object.keys(availability).length === 0) {
         ... continue;
       }
       let message = `🏠 <b>...` ...;
       for (const [dateStr, slots] of Object.entries(availability)) {
         message += `\n<b>` + dateStr + `</b>: ` + slots.join(", ");
       }
       // await sendToTelegram(message);
     }

   `renderMessage` is the message built by the `message +=` loop;
   `composedMessages` collects the messages the loop composes (skipping
   `Failed` and empty maps); `notifierCalls` collects the messages actually
   handed to `sendToTelegram` — the call on line 493 is commented out, so
   the loop body hands over nothing in any branch. -/

def renderMessage (roomName : String) (avail : List (String × List String)) : String :=
  "🏠 <b>" ++ roomName ++ "</b>\n\nAvailable slots:\n" ++
    String.join (avail.map fun p => "\n<b>" ++ p.1 ++ "</b>: " ++ String.intercalate ", " p.2)

def composedMessages (results : List (String × ScanOutcome)) : List String :=
  results.filterMap fun r =>
    match r.2 with
    | .failed => none
    | .found a => if a.length = 0 then none else some (renderMessage r.1 a)

def notifierCalls (results : List (String × ScanOutcome)) : List String :=
  results.foldl
    (fun acc r =>
      match r.2 with
      | .failed => acc
      | .found a => if a.length = 0 then acc else acc)
    []

/- ====================================================================
   Specification-side predicates and concrete sample data (used by the
   witnesses below).
   ==================================================================== -/

/-- Trace well-formedness of one scan: the current `lastKnownTimeHTML` was
produced by some logged content read, and every `waitForFunction` poll's
baseline was produced by a content read that happened strictly before the
clicked day's click event. -/
def TraceOK (st : ScanSt) : Prop :=
  (∃ i : Nat, st.trace[i]? = some (Ev.readHTML st.lastHTML))
  ∧ ∀ k b, Ev.waitChange k b ∈ st.trace →
      ∃ i j : Nat, i < j ∧ st.trace[i]? = some (Ev.readHTML b)
        ∧ st.trace[j]? = some (Ev.click k)

def opC2 (i : Nat) : Except Nat Nat := if i = 3 then .ok 42 else .error 9

/-- Sample `.time-selection li` items: one open slot, one `disabled`, one
`list-group-item-danger`, one "Not Available" text, one whitespace-only. -/
def sampleItems : List SlotItem :=
  [⟨false, false, " 10:00 pm slot"⟩, ⟨true, false, "11:00"⟩, ⟨false, true, "12:00"⟩,
    ⟨false, false, "Not Available"⟩, ⟨false, false, "   "⟩]

def sampleDay : DayInfo := ⟨true, false, fun _ => true, true, some "u1", sampleItems⟩

def absentDay : DayInfo := ⟨false, false, fun _ => false, false, none, []⟩

/-- A sample scan: navigation succeeds at once, the calendar appears, a
2-day window probes one bookable day (offset 0) and one absent day. -/
def sampleEnv : RoomEnv :=
  ⟨fun _ => true, fun _ => 0, true, some "init", 1,
    fun o => ⟨5 + o, 3, 2026⟩, fun o => if o = 0 then sampleDay else absentDay, fun _ => 0⟩

/-- Same page but the calendar-indicating selectors never appear. -/
def sampleEnvNoCal : RoomEnv :=
  ⟨fun _ => true, fun _ => 0, false, some "init", 1,
    fun o => ⟨5 + o, 3, 2026⟩, fun o => if o = 0 then sampleDay else absentDay, fun _ => 0⟩

def goodScan : Nat → Except Unit (List (String × List String)) :=
  fun _ => .ok [("05/03/2026", ["10:00"])]

def goodRun : RoomRun := ⟨true, goodScan, fun _ => 0⟩

/-- A room task whose every whole-scan attempt throws. -/
def badRun : RoomRun := ⟨true, fun _ => .error (), fun _ => 0⟩

def envGood : Nat → RoomRun := fun _ => goodRun

def envBad : Nat → RoomRun := fun i => if i = 1 then badRun else goodRun

def demoRooms : List Room := [⟨"Room A", "urlA"⟩, ⟨"Room B", "urlB"⟩]

/- ====================================================================
   Helper lemmas about the retry executor.
   ==================================================================== -/

theorem runRetries_succ_after_fails {ε α : Type} (op : Nat → Except ε α) (jit : Nat → Nat)
    (baseDelay : Nat) (k : Nat) :
    ∀ (a r : Nat) (v : α), k < r →
      (∀ i, a ≤ i → i < a + k → ∃ e, op i = .error e) →
      op (a + k) = .ok v →
      runRetries op jit baseDelay a r
        = (some (.ok v), (List.range k).map fun t => baseDelay * 2 ^ (a + t - 1) + jit (a + t)) := by
  induction k with
  | zero =>
    intro a r v hk hfail hsucc
    obtain ⟨r', rfl⟩ : ∃ r', r = r' + 1 := ⟨r - 1, by omega⟩
    rw [Nat.add_zero] at hsucc
    simp [runRetries, hsucc]
  | succ k ih =>
    intro a r v hk hfail hsucc
    obtain ⟨r', rfl⟩ : ∃ r', r = r' + 1 := ⟨r - 1, by omega⟩
    obtain ⟨e, he⟩ := hfail a (Nat.le_refl a) (by omega)
    have hr' : r' ≠ 0 := by omega
    have ihres := ih (a + 1) r' v (by omega)
      (fun i h1 h2 => hfail i (by omega) (by omega))
      (by rw [show a + 1 + k = a + (k + 1) by omega]; exact hsucc)
    have hlist : ((List.range (k + 1)).map fun t => baseDelay * 2 ^ (a + t - 1) + jit (a + t))
        = (baseDelay * 2 ^ (a - 1) + jit a)
          :: ((List.range k).map fun t => baseDelay * 2 ^ (a + 1 + t - 1) + jit (a + 1 + t)) := by
      rw [List.range_succ_eq_map]
      simp only [List.map_cons, List.map_map, Nat.add_zero]
      refine congrArg₂ List.cons rfl ?_
      apply List.map_congr_left
      intro t _
      simp only [Function.comp_apply]
      rw [show a + 1 + t = a + (t + 1) by omega]
    have step : runRetries op jit baseDelay a (r' + 1)
        = ((runRetries op jit baseDelay (a + 1) r').1,
            (baseDelay * 2 ^ (a - 1) + jit a) :: (runRetries op jit baseDelay (a + 1) r').2) := by
      simp [runRetries, he, hr']
    rw [step, ihres, hlist]

theorem runRetries_error_last {ε α : Type} (op : Nat → Except ε α) (jit : Nat → Nat)
    (baseDelay : Nat) (e : Nat → ε) (r : Nat) :
    ∀ a, 1 ≤ r → (∀ i, a ≤ i → i < a + r → op i = .error (e i)) →
    (runRetries op jit baseDelay a r).1 = some (.error (e (a + r - 1))) := by
  induction r with
  | zero => intro a h; omega
  | succ r ih =>
    intro a _ hfail
    have he : op a = .error (e a) := hfail a (Nat.le_refl a) (by omega)
    by_cases hr : r = 0
    · subst hr; simp [runRetries, he]
    · have hrec := ih (a + 1) (by omega) (fun i h1 h2 => hfail i (by omega) (by omega))
      have hidx : a + 1 + r - 1 = a + (r + 1) - 1 := by omega
      rw [hidx] at hrec
      simp [runRetries, he, hr, hrec]

theorem runRetries_fst_error_of_never_ok {ε α : Type} (op : Nat → Except ε α) (jit : Nat → Nat)
    (baseDelay : Nat) (r : Nat) :
    ∀ a, 1 ≤ r → (∀ i, a ≤ i → i < a + r → ∀ v, op i ≠ .ok v) →
    ∃ e, (runRetries op jit baseDelay a r).1 = some (.error e) := by
  induction r with
  | zero => intro a h; omega
  | succ r ih =>
    intro a _ hfail
    cases hcase : op a with
    | ok v => exact absurd hcase (hfail a (Nat.le_refl a) (by omega) v)
    | error e =>
      by_cases hr : r = 0
      · subst hr; exact ⟨e, by simp [runRetries, hcase]⟩
      · obtain ⟨e', he'⟩ := ih (a + 1) (by omega) (fun i h1 h2 => hfail i (by omega) (by omega))
        exact ⟨e', by simp [runRetries, hcase, hr, he']⟩

theorem runRetries_unit_ok (op : Nat → Except Unit Unit) (jit : Nat → Nat)
    (baseDelay : Nat) (r : Nat) :
    ∀ a, (∃ i, a ≤ i ∧ i < a + r ∧ op i = .ok ()) →
    (runRetries op jit baseDelay a r).1 = some (.ok ()) := by
  induction r with
  | zero =>
    intro a ⟨i, h1, h2, _⟩
    omega
  | succ r ih =>
    intro a ⟨i, h1, h2, hok⟩
    cases hcase : op a with
    | ok u => cases u; simp [runRetries, hcase]
    | error u =>
      have hia : i ≠ a := by
        intro h
        subst h
        rw [hok] at hcase
        cases hcase
      have hr : r ≠ 0 := by omega
      have hrec := ih (a + 1) ⟨i, by omega, by omega, hok⟩
      simp [runRetries, hcase, hr, hrec]

/- ====================================================================
   C1 and C2.
   ==================================================================== -/

/-- Claim C1: the claim asserts that the release times of any valid
(concurrent or sequential) sequence of `enforceGlobalRateLimit` calls are
pairwise separated by at least `GLOBAL_MIN_REQUEST_INTERVAL_MS`, because the
read of `_lastRequestAt` and its update are atomic.  The code violates this:
the read and the write are separated by `await sleep(wait)`, so in the valid
schedule `raceSched` callers 1 and 2 both read the stale stamp 2000, both
sleep until 3500, and both are released at 3500 — separation 0 < 1500. -/
theorem rateLimiter_release_race :
    validFrom 1500 raceStart 0 raceSched = true
    ∧ releasedTimes (gateRun 1500 raceStart raceSched) = [2000, 3500, 3500]
    ∧ ¬ PairwiseSeparated 1500 (releasedTimes (gateRun 1500 raceStart raceSched)) := by
  refine ⟨by decide, by decide, ?_⟩
  rw [show releasedTimes (gateRun 1500 raceStart raceSched) = [2000, 3500, 3500] by decide]
  intro h
  rcases h with _ | ⟨_, h2⟩
  rcases h2 with _ | ⟨h3, _⟩
  have := h3 3500 (by simp)
  omega

/-- Claim C2 (amended): if `op` fails exactly `k < attempts` times and then
succeeds, `withRetries` returns the success value after exactly `k` backoff
waits of `baseDelay * 2 ^ (attempt - 1) + jitter` with `jitter < 500`, and —
provided `baseDelay ≥ 1` — the deterministic delay bounds strictly increase
with the attempt number; if every attempt fails, the final attempt's error
is returned unchanged. -/
theorem withRetries_behavior {ε α : Type} (op : Nat → Except ε α) (jit : Nat → Nat)
    (attempts baseDelay : Nat)
    (hjit : ∀ i, jit i < 500) (hatt : 1 ≤ attempts) :
    (∀ k (v : α), k < attempts →
        (∀ i, 1 ≤ i → i ≤ k → ∃ e, op i = .error e) →
        op (k + 1) = .ok v →
        withRetries op jit attempts baseDelay
          = (some (.ok v), (List.range k).map fun t => baseDelay * 2 ^ t + jit (t + 1))
        ∧ (withRetries op jit attempts baseDelay).2.length = k
        ∧ (∀ w ∈ (withRetries op jit attempts baseDelay).2, ∃ t, t < k ∧
            w = baseDelay * 2 ^ t + jit (t + 1) ∧ baseDelay * 2 ^ t ≤ w
            ∧ w < baseDelay * 2 ^ t + 500)
        ∧ (1 ≤ baseDelay →
            List.Chain' (· < ·) ((List.range k).map fun t => baseDelay * 2 ^ t)))
    ∧ (∀ e : Nat → ε, (∀ i, 1 ≤ i → i ≤ attempts → op i = .error (e i)) →
        (withRetries op jit attempts baseDelay).1 = some (.error (e attempts))) := by
  constructor
  · intro k v hk hfail hsucc
    have hmain := runRetries_succ_after_fails op jit baseDelay k 1 attempts v hk
      (fun i h1 h2 => hfail i h1 (by omega))
      (by rw [show 1 + k = k + 1 by omega]; exact hsucc)
    have hfix : ((List.range k).map fun t => baseDelay * 2 ^ (1 + t - 1) + jit (1 + t))
        = (List.range k).map fun t => baseDelay * 2 ^ t + jit (t + 1) := by
      apply List.map_congr_left
      intro t _
      have h1 : 1 + t - 1 = t := by omega
      have h2 : 1 + t = t + 1 := by omega
      rw [h1, h2]
    have hres : withRetries op jit attempts baseDelay
        = (some (.ok v), (List.range k).map fun t => baseDelay * 2 ^ t + jit (t + 1)) := by
      rw [withRetries, hmain, hfix]
    refine ⟨hres, ?_, ?_, ?_⟩
    · rw [hres]; simp
    · rw [hres]
      intro w hw
      simp only [List.mem_map, List.mem_range] at hw
      obtain ⟨t, ht, rfl⟩ := hw
      exact ⟨t, ht, rfl, Nat.le_add_right _ _, by have := hjit (t + 1); omega⟩
    · intro hbase
      rw [List.chain'_map]
      match k with
      | 0 => exact List.chain'_nil
      | m + 1 =>
        rw [List.chain'_range_succ]
        intro i _
        have hpow : (2 : Nat) ^ i < 2 ^ (i + 1) := Nat.pow_lt_pow_succ (by omega)
        exact mul_lt_mul_of_pos_left hpow (by omega)
  · intro e hfail
    have := runRetries_error_last op jit baseDelay e attempts 1 hatt
      (fun i h1 h2 => hfail i h1 (by omega))
    rw [withRetries, this]
    congr 1
    rw [show 1 + attempts - 1 = attempts by omega]

/-- Witness for `withRetries_behavior`: an operation failing on attempts 1
and 2 and succeeding on attempt 3, with `attempts = 4`, `baseDelay = 100`
and constant jitter 7, returns the success value after waits 107, 207. -/
theorem withRetries_behavior_witness :
    withRetries opC2 (fun _ => 7) 4 100 = (some (.ok 42), [107, 207]) := by
  have h := ((withRetries_behavior opC2 (fun _ => 7) 4 100
      (fun i => by norm_num) (by omega)).1 2 42 (by omega)
      (fun i h1 h2 => ⟨9, by interval_cases i <;> rfl⟩) (by rfl)).1
  rw [h]
  rfl

/-- Claim C2 counterexample: the claim quantifies over every base delay, but
with `baseDelay = 0` the delay bounds `0 * 2 ^ (attempt - 1)` do not strictly
increase: an operation failing twice then succeeding under `attempts = 3`,
`baseDelay = 0` and zero jitter performs the waits `[0, 0]`. -/
theorem withRetries_zero_base_not_increasing :
    (withRetries (fun i => if i = 3 then (Except.ok 42 : Except Nat Nat) else .error 0)
        (fun _ => 0) 3 0).1 = some (.ok 42)
    ∧ (withRetries (fun i => if i = 3 then (Except.ok 42 : Except Nat Nat) else .error 0)
        (fun _ => 0) 3 0).2 = [0, 0]
    ∧ ¬ List.Chain' (· < ·)
        (withRetries (fun i => if i = 3 then (Except.ok 42 : Except Nat Nat) else .error 0)
          (fun _ => 0) 3 0).2 := by
  have h2 : (withRetries (fun i => if i = 3 then (Except.ok 42 : Except Nat Nat) else .error 0)
      (fun _ => 0) 3 0).2 = [0, 0] := rfl
  refine ⟨rfl, h2, ?_⟩
  rw [h2]
  intro h
  rw [List.chain'_cons] at h
  exact absurd h.1 (by omega)

/- ====================================================================
   Helper lemmas about the day loop.
   ==================================================================== -/

theorem processDay_cases (env : RoomEnv) (offset : Nat) (st : ScanSt) :
    (processDay env offset st = ⟨st.lastHTML, st.avail, st.trace ++ [Ev.probe offset]⟩
      ∧ ((env.days offset).present = false ∨ (env.days offset).disabled = true
          ∨ clickSucceeds (env.days offset) env.clickJit = false))
    ∨ processDay env offset st
        = ⟨(env.days offset).html.getD "",
            (if 0 < (extractSlots (env.days offset).items).length
              then st.avail ++ [(dateKey (env.dates offset), extractSlots (env.days offset).items)]
              else st.avail),
            st.trace ++ [Ev.probe offset]
              ++ [Ev.click offset, Ev.waitChange offset st.lastHTML,
                  Ev.readHTML ((env.days offset).html.getD ""),
                  Ev.scrape offset (extractSlots (env.days offset).items)]⟩ := by
  by_cases h1 : (env.days offset).present = false
  · exact Or.inl ⟨by simp [processDay, h1], Or.inl h1⟩
  · by_cases h2 : (env.days offset).disabled = true
    · exact Or.inl ⟨by simp [processDay, h1, h2], Or.inr (Or.inl h2)⟩
    · by_cases h3 : clickSucceeds (env.days offset) env.clickJit = false
      · exact Or.inl ⟨by simp [processDay, h1, h2, h3], Or.inr (Or.inr h3)⟩
      · exact Or.inr (by simp [processDay, h1, h2, h3])

theorem scanLoop_avail_invariant (env : RoomEnv) (P : String × List String → Prop)
    (hP : ∀ offset, offset ≤ env.daysAhead →
      0 < (extractSlots (env.days offset).items).length →
      P (dateKey (env.dates offset), extractSlots (env.days offset).items)) :
    ∀ (fuel offset : Nat) (st : ScanSt), (∀ p ∈ st.avail, P p) →
      ∀ p ∈ (scanLoop env fuel offset st).avail, P p := by
  intro fuel
  induction fuel with
  | zero => intro offset st h; exact h
  | succ fuel ih =>
    intro offset st h
    rw [scanLoop]
    split
    · next hoff =>
      apply ih
      intro p hp
      rcases processDay_cases env offset st with ⟨heq, _⟩ | heq
      · have : (processDay env offset st).avail = st.avail := by rw [heq]
        rw [this] at hp
        exact h p hp
      · have : (processDay env offset st).avail
            = if 0 < (extractSlots (env.days offset).items).length
              then st.avail ++ [(dateKey (env.dates offset), extractSlots (env.days offset).items)]
              else st.avail := by rw [heq]
        rw [this] at hp
        split at hp
        · next hlen =>
          rcases List.mem_append.mp hp with hmem | hmem
          · exact h p hmem
          · rw [List.mem_singleton.mp hmem]
            exact hP offset hoff hlen
        · exact h p hp
    · exact h

theorem probeOffsets_processDay (env : RoomEnv) (offset : Nat) (st : ScanSt) :
    probeOffsets (processDay env offset st).trace = probeOffsets st.trace ++ [offset] := by
  rcases processDay_cases env offset st with ⟨heq, _⟩ | heq <;>
    · rw [heq]
      simp [probeOffsets, probeOf]

theorem probeOffsets_scanLoop (env : RoomEnv) :
    ∀ (fuel offset : Nat) (st : ScanSt), env.daysAhead + 1 ≤ offset + fuel →
      probeOffsets (scanLoop env fuel offset st).trace
        = probeOffsets st.trace ++ List.range' offset (env.daysAhead + 1 - offset) := by
  intro fuel
  induction fuel with
  | zero =>
    intro offset st h
    have h0 : env.daysAhead + 1 - offset = 0 := by omega
    simp [scanLoop, h0]
  | succ fuel ih =>
    intro offset st h
    rw [scanLoop]
    split
    · next hoff =>
      rw [ih (offset + 1) (processDay env offset st) (by omega), probeOffsets_processDay,
        List.append_assoc]
      have hlen : env.daysAhead + 1 - offset = (env.daysAhead - offset) + 1 := by omega
      have hlen2 : env.daysAhead + 1 - (offset + 1) = env.daysAhead - offset := by omega
      rw [hlen, hlen2, List.range'_succ]
      rfl
    · next hoff =>
      have h0 : env.daysAhead + 1 - offset = 0 := by omega
      simp [h0]

/- ====================================================================
   C4, C9, C10: properties of the scanner's availability map and day loop.
   ==================================================================== -/

/-- Claim C4: every DateKey present in an Availability map returned by the
scanner maps to a non-empty SlotLabel sequence — a day whose extracted slot
list is empty is never written into the map. -/
theorem scanner_avail_nonempty (env : RoomEnv) (m : List (String × List String))
    (h : checkRoomAvailability env = .ok m) :
    ∀ p ∈ m, p.2 ≠ ([] : List String) := by
  unfold checkRoomAvailability at h
  cases hnav : (withRetries (navAttempt env) env.navJit 3 2000).1 with
  | none => rw [hnav] at h; cases h
  | some r =>
    cases r with
    | error e => rw [hnav] at h; cases h
    | ok u =>
      rw [hnav] at h
      by_cases hcal : env.calendarAppears
      · rw [if_pos hcal] at h
        injection h with h'
        subst h'
        apply scanLoop_avail_invariant env (fun p => p.2 ≠ [])
        · intro offset _ hlen
          intro hnil
          have hnil' : extractSlots (env.days offset).items = [] := hnil
          rw [hnil'] at hlen
          simp at hlen
        · intro p hp
          simp [initSt] at hp
      · rw [if_neg hcal] at h
        injection h with h'
        subst h'
        intro p hp
        simp at hp

/-- Witness for `scanner_avail_nonempty` at the concrete sample scan, whose
returned map is `[("05/03/2026", ["10:00"])]`. -/
theorem scanner_avail_nonempty_witness :
    ("05/03/2026", ["10:00"]).2 ≠ ([] : List String) :=
  scanner_avail_nonempty sampleEnv [("05/03/2026", ["10:00"])] rfl
    ("05/03/2026", ["10:00"]) (by simp)

/-- Claim C9: every DateKey in a returned Availability map is the probed
day's date rendered day/month/year with zero-padded day and month (the
en-GB "2-digit" format of lines 272-276 and 325-330); e.g. the date
5 March 2026 renders as "05/03/2026". -/
theorem scanner_datekey_format (env : RoomEnv) (m : List (String × List String))
    (h : checkRoomAvailability env = .ok m) :
    (∀ p ∈ m, ∃ o, o ≤ env.daysAhead ∧ p.1 = dateKey (env.dates o))
    ∧ dateKey ⟨5, 3, 2026⟩ = "05/03/2026" := by
  refine ⟨?_, rfl⟩
  unfold checkRoomAvailability at h
  cases hnav : (withRetries (navAttempt env) env.navJit 3 2000).1 with
  | none => rw [hnav] at h; cases h
  | some r =>
    cases r with
    | error e => rw [hnav] at h; cases h
    | ok u =>
      rw [hnav] at h
      by_cases hcal : env.calendarAppears
      · rw [if_pos hcal] at h
        injection h with h'
        subst h'
        apply scanLoop_avail_invariant env
          (fun p => ∃ o, o ≤ env.daysAhead ∧ p.1 = dateKey (env.dates o))
        · intro offset hoff _
          exact ⟨offset, hoff, rfl⟩
        · intro p hp
          simp [initSt] at hp
      · rw [if_neg hcal] at h
        injection h with h'
        subst h'
        intro p hp
        simp at hp

/-- Witness for `scanner_datekey_format`: the key recorded by the sample
scan is the zero-padded rendering of its day's date. -/
theorem scanner_datekey_format_witness :
    ∃ o, o ≤ sampleEnv.daysAhead ∧ ("05/03/2026", ["10:00"]).1 = dateKey (sampleEnv.dates o) :=
  (scanner_datekey_format sampleEnv [("05/03/2026", ["10:00"])] rfl).1
    ("05/03/2026", ["10:00"]) (by simp)

/-- Claim C10: for a configured window `W = DAYS_AHEAD`, the day loop
(`for (let offset = 0; offset <= DAYS_AHEAD; offset++)`) probes exactly
`W + 1` consecutive offsets, namely 0 through `W` inclusive — one more day
than the configured value, because the bound is inclusive. -/
theorem scanner_probes_window (env : RoomEnv) :
    probeOffsets (scanRun env).trace = List.range (env.daysAhead + 1)
    ∧ (probeOffsets (scanRun env).trace).length = env.daysAhead + 1
    ∧ ∀ o, o ∈ probeOffsets (scanRun env).trace ↔ o ≤ env.daysAhead := by
  have hmain : probeOffsets (scanRun env).trace = List.range (env.daysAhead + 1) := by
    rw [scanRun, probeOffsets_scanLoop env (env.daysAhead + 1) 0 (initSt env) (by omega)]
    have hinit : probeOffsets (initSt env).trace = [] := rfl
    rw [hinit, List.nil_append, Nat.sub_zero, List.range_eq_range']
  refine ⟨hmain, by rw [hmain]; simp, ?_⟩
  intro o
  rw [hmain, List.mem_range]
  omega

/- ====================================================================
   C3: calendar-appearance timeout yields an empty map, never Failed.
   ==================================================================== -/

/-- Claim C3: when the session and navigation succeed but none of the
calendar-indicating selectors appears within `CALENDAR_WAIT_TIMEOUT_MS`, the
scanner catches the timeout and returns an empty Availability map (line
309), so the resource's outcome is `Found({})`, never `Failed`, and no error
escapes the scanner at this step. -/
theorem scanner_calendar_timeout_empty (env : RoomEnv) (room : Room) (jit : Nat → Nat)
    (hnav : ∃ i, 1 ≤ i ∧ i ≤ 3 ∧ env.navOk i = true)
    (hcal : env.calendarAppears = false) :
    checkRoomAvailability env = .ok []
    ∧ processRoom room ⟨true, fun _ => checkRoomAvailability env, jit⟩
        = (room.name, .found []) := by
  obtain ⟨i, h1, h3, hok⟩ := hnav
  have hnavres : (withRetries (navAttempt env) env.navJit 3 2000).1 = some (.ok ()) := by
    apply runRetries_unit_ok
    exact ⟨i, h1, by omega, by simp [navAttempt, hok]⟩
  have hmain : checkRoomAvailability env = .ok [] := by
    unfold checkRoomAvailability
    rw [hnavres, if_neg (by simp [hcal])]
  refine ⟨hmain, ?_⟩
  have hscan : (withRetries (fun _ => checkRoomAvailability env) jit 2 1000).1
      = some (.ok ([] : List (String × List String))) := by
    simp [withRetries, runRetries, hmain]
  unfold processRoom
  simp only [hscan]
  rfl

/-- Witness for `scanner_calendar_timeout_empty` at the sample page whose
calendar never appears. -/
theorem scanner_calendar_timeout_empty_witness :
    checkRoomAvailability sampleEnvNoCal = .ok []
    ∧ processRoom ⟨"Room A", "urlA"⟩
        ⟨true, fun _ => checkRoomAvailability sampleEnvNoCal, fun _ => 0⟩
        = ("Room A", .found []) :=
  scanner_calendar_timeout_empty sampleEnvNoCal ⟨"Room A", "urlA"⟩ (fun _ => 0)
    ⟨1, by omega, by omega, rfl⟩ rfl

/- ====================================================================
   C7: absent, disabled, and click-failed days are skipped.
   ==================================================================== -/

/-- Claim C7: a probed day whose element is absent, or which carries a
disabled/unavailable class or the ARIA disabled flag, or whose click still
fails after its 2-attempt retry budget, is skipped: no Availability entry is
written, the loop state is untouched, no error is raised (the embedding of
each skip path is total), and the loop continues with the next offset. -/
theorem dayProber_skips (env : RoomEnv) (offset fuel : Nat) (st : ScanSt)
    (h : (env.days offset).present = false ∨ (env.days offset).disabled = true
      ∨ clickSucceeds (env.days offset) env.clickJit = false) :
    (processDay env offset st).avail = st.avail
    ∧ (processDay env offset st).lastHTML = st.lastHTML
    ∧ (offset ≤ env.daysAhead →
        scanLoop env (fuel + 1) offset st
          = scanLoop env fuel (offset + 1) (processDay env offset st)) := by
  have heq : processDay env offset st
      = ⟨st.lastHTML, st.avail, st.trace ++ [Ev.probe offset]⟩ := by
    by_cases h1 : (env.days offset).present = false
    · simp [processDay, h1]
    · by_cases h2 : (env.days offset).disabled = true
      · simp [processDay, h1, h2]
      · have h3 : clickSucceeds (env.days offset) env.clickJit = false := by
          rcases h with h | h | h
          · exact absurd h h1
          · exact absurd h h2
          · exact h
        simp [processDay, h1, h2, h3]
  refine ⟨by rw [heq], by rw [heq], ?_⟩
  intro hoff
  rw [scanLoop, if_pos hoff]

/-- Witness for `dayProber_skips`: offset 1 of the sample scan has no day
element; processing it leaves the map and baseline unchanged and the loop
moves on to offset 2. -/
theorem dayProber_skips_witness :
    (processDay sampleEnv 1 (initSt sampleEnv)).avail = (initSt sampleEnv).avail
    ∧ (processDay sampleEnv 1 (initSt sampleEnv)).lastHTML = (initSt sampleEnv).lastHTML
    ∧ (1 ≤ sampleEnv.daysAhead →
        scanLoop sampleEnv 1 1 (initSt sampleEnv)
          = scanLoop sampleEnv 0 2 (processDay sampleEnv 1 (initSt sampleEnv))) :=
  dayProber_skips sampleEnv 1 0 (initSt sampleEnv) (Or.inl rfl)

/- ====================================================================
   C8: the content-diff baseline is captured before the day's click.
   ==================================================================== -/

theorem getElem?_append_left' {α : Type} {l₁ l₂ : List α} {i : Nat} {a : α}
    (h : l₁[i]? = some a) : (l₁ ++ l₂)[i]? = some a := by
  have hi : i < l₁.length := by
    by_contra hc
    rw [List.getElem?_eq_none (by omega)] at h
    cases h
  rw [List.getElem?_append_left hi]
  exact h

theorem index_lt_of_getElem?_some {α : Type} {l : List α} {i : Nat} {a : α}
    (h : l[i]? = some a) : i < l.length := by
  by_contra hc
  rw [List.getElem?_eq_none (by omega)] at h
  cases h

theorem processDay_traceOK (env : RoomEnv) (offset : Nat) (st : ScanSt)
    (h : TraceOK st) : TraceOK (processDay env offset st) := by
  obtain ⟨⟨i0, hi0⟩, hw⟩ := h
  have hi0len : i0 < st.trace.length := index_lt_of_getElem?_some hi0
  rcases processDay_cases env offset st with ⟨heq, _⟩ | heq
  · have htr : (processDay env offset st).trace = st.trace ++ [Ev.probe offset] := by rw [heq]
    have hlh : (processDay env offset st).lastHTML = st.lastHTML := by rw [heq]
    simp only [TraceOK]
    rw [htr, hlh]
    constructor
    · exact ⟨i0, getElem?_append_left' hi0⟩
    · intro k b hmem
      rcases List.mem_append.mp hmem with hmem | hmem
      · obtain ⟨i, j, hij, hri, hrj⟩ := hw k b hmem
        exact ⟨i, j, hij, getElem?_append_left' hri, getElem?_append_left' hrj⟩
      · simp at hmem
  · have htr : (processDay env offset st).trace
        = st.trace ++ [Ev.probe offset, Ev.click offset, Ev.waitChange offset st.lastHTML,
            Ev.readHTML ((env.days offset).html.getD ""),
            Ev.scrape offset (extractSlots (env.days offset).items)] := by
      rw [heq]
      simp
    have hlh : (processDay env offset st).lastHTML = (env.days offset).html.getD "" := by
      rw [heq]
    simp only [TraceOK]
    rw [htr, hlh]
    constructor
    · refine ⟨st.trace.length + 3, ?_⟩
      rw [List.getElem?_append_right (by omega)]
      rw [show st.trace.length + 3 - st.trace.length = 3 by omega]
      rfl
    · intro k b hmem
      rcases List.mem_append.mp hmem with hmem | hmem
      · obtain ⟨i, j, hij, hri, hrj⟩ := hw k b hmem
        exact ⟨i, j, hij, getElem?_append_left' hri, getElem?_append_left' hrj⟩
      · have hkb : k = offset ∧ b = st.lastHTML := by
          simp only [List.mem_cons, List.not_mem_nil, or_false] at hmem
          rcases hmem with hmem | hmem | hmem | hmem | hmem <;> cases hmem
          exact ⟨rfl, rfl⟩
        obtain ⟨rfl, rfl⟩ := hkb
        refine ⟨i0, st.trace.length + 1, by omega, getElem?_append_left' hi0, ?_⟩
        rw [List.getElem?_append_right (by omega)]
        rw [show st.trace.length + 1 - st.trace.length = 1 by omega]
        rfl

theorem scanLoop_traceOK (env : RoomEnv) :
    ∀ (fuel offset : Nat) (st : ScanSt), TraceOK st → TraceOK (scanLoop env fuel offset st) := by
  intro fuel
  induction fuel with
  | zero => intro offset st h; exact h
  | succ fuel ih =>
    intro offset st h
    rw [scanLoop]
    split
    · exact ih _ _ (processDay_traceOK env offset st h)
    · exact h

/-- Claim C8: whenever the content-diff wait for a probed day runs with
baseline `b`, that baseline was produced by a logged content read that
happened strictly before the day's selection click — either the pre-loop
read or the re-read at the end of the previous processed day. -/
theorem dayProber_baseline_before_click (env : RoomEnv) (k : Nat) (b : String)
    (h : Ev.waitChange k b ∈ (scanRun env).trace) :
    ∃ i j : Nat, i < j ∧ (scanRun env).trace[i]? = some (Ev.readHTML b)
      ∧ (scanRun env).trace[j]? = some (Ev.click k) := by
  have h0 : TraceOK (initSt env) := by
    constructor
    · exact ⟨0, rfl⟩
    · intro k' b' hmem
      simp [initSt] at hmem
  exact (scanLoop_traceOK env (env.daysAhead + 1) 0 (initSt env) h0).2 k b h

/-- Witness for `dayProber_baseline_before_click`: in the sample scan,
offset 0's wait uses baseline "init", which was read (trace position 0)
before the click (trace position 2). -/
theorem dayProber_baseline_before_click_witness :
    ∃ i j : Nat, i < j ∧ (scanRun sampleEnv).trace[i]? = some (Ev.readHTML "init")
      ∧ (scanRun sampleEnv).trace[j]? = some (Ev.click 0) :=
  dayProber_baseline_before_click sampleEnv 0 "init"
    (by
      rw [show (scanRun sampleEnv).trace
        = [Ev.readHTML "init", Ev.probe 0, Ev.click 0, Ev.waitChange 0 "init",
            Ev.readHTML "u1", Ev.scrape 0 ["10:00"], Ev.probe 1] from rfl]
      simp)

/- ====================================================================
   C5: per-resource fault isolation and input-order results.
   ==================================================================== -/

theorem processRoom_fst (room : Room) (run : RoomRun) :
    (processRoom room run).1 = room.name := by
  unfold processRoom
  split
  · rfl
  · split <;> rfl

theorem processRoom_failed (room : Room) (run : RoomRun)
    (h : run.launchOk = false ∨ ∀ i, 1 ≤ i → i ≤ 2 → ∀ v, run.scan i ≠ .ok v) :
    processRoom room run = (room.name, .failed) := by
  unfold processRoom
  rcases h with h | h
  · rw [if_pos h]
  · split
    · rfl
    · obtain ⟨e, he⟩ := runRetries_fst_error_of_never_ok run.scan run.jit 1000 2 1
        (by omega) (fun i h1 h2 v => h i h1 (by omega) v)
      rw [show (withRetries run.scan run.jit 2 1000).1 = some (.error e) from he]

theorem runAllFrom_names (env : Nat → RoomRun) :
    ∀ (rs : List Room) (i : Nat), (runAllFrom env i rs).map Prod.fst = rs.map Room.name := by
  intro rs
  induction rs with
  | nil => intro i; rfl
  | cons r rs ih =>
    intro i
    simp only [runAllFrom, List.map_cons, ih (i + 1), processRoom_fst]

theorem runAllFrom_length (env : Nat → RoomRun) :
    ∀ (rs : List Room) (i : Nat), (runAllFrom env i rs).length = rs.length := by
  intro rs
  induction rs with
  | nil => intro i; rfl
  | cons r rs ih => intro i; simp [runAllFrom, ih (i + 1)]

theorem runAllFrom_getElem? (env : Nat → RoomRun) :
    ∀ (rs : List Room) (i j : Nat),
      (runAllFrom env i rs)[j]? = (rs[j]?).map fun r => processRoom r (env (i + j)) := by
  intro rs
  induction rs with
  | nil => intro i j; simp [runAllFrom]
  | cons r rs ih =>
    intro i j
    cases j with
    | zero => simp [runAllFrom]
    | succ j =>
      simp only [runAllFrom, List.getElem?_cons_succ, ih (i + 1) j]
      rw [show i + 1 + j = i + (j + 1) by omega]

/-- Claim C5: the orchestrator converts one resource's unhandled fault
(launch failure, or every whole-scan attempt failing) into a `Failed`
outcome for that resource only: every other resource's ScanResult is the
same as it would have been without the fault, the run completes with one
result per resource, and results are in input resource order. -/
theorem orchestrator_isolation (rooms : List Room) (envA envB : Nat → RoomRun) (b : Nat)
    (hagree : ∀ i, i ≠ b → envA i = envB i)
    (hfault : (envB b).launchOk = false
      ∨ ∀ i, 1 ≤ i → i ≤ 2 → ∀ v, (envB b).scan i ≠ .ok v) :
    (runAll rooms envB).map Prod.fst = rooms.map Room.name
    ∧ (runAll rooms envB).length = rooms.length
    ∧ (∀ i, i ≠ b → (runAll rooms envB)[i]? = (runAll rooms envA)[i]?)
    ∧ (∀ r, rooms[b]? = some r → (runAll rooms envB)[b]? = some (r.name, .failed)) := by
  refine ⟨runAllFrom_names envB rooms 0, runAllFrom_length envB rooms 0, ?_, ?_⟩
  · intro i hi
    rw [runAll, runAll, runAllFrom_getElem?, runAllFrom_getElem?]
    rw [show (0 : Nat) + i = i by omega, hagree i hi]
  · intro r hr
    rw [runAll, runAllFrom_getElem?, show (0 : Nat) + b = b by omega, hr]
    simp only [Option.map_some']
    rw [processRoom_failed r (envB b) hfault]

/-- Witness for `orchestrator_isolation`: two rooms, room B's every scan
attempt throws; room A's result is unaffected, room B is `Failed`, and the
output order is the input order. -/
theorem orchestrator_isolation_witness :
    (runAll demoRooms envBad).map Prod.fst = ["Room A", "Room B"]
    ∧ (runAll demoRooms envBad)[0]? = (runAll demoRooms envGood)[0]?
    ∧ (runAll demoRooms envBad)[1]? = some ("Room B", .failed) := by
  have h := orchestrator_isolation demoRooms envGood envBad 1
    (fun i hi => by simp [envGood, envBad, hi])
    (Or.inr (fun i h1 h2 v => by simp [envBad, badRun]))
  exact ⟨h.1.trans rfl, h.2.2.1 0 (by omega), h.2.2.2 ⟨"Room B", "urlB"⟩ rfl⟩

/- ====================================================================
   C6: the Reporter composes the message but the hand-off to the Notifier
   is disabled.
   ==================================================================== -/

/-- Claim C6: the claim says the Reporter skips `Failed` and empty maps and
otherwise renders the heading-plus-one-line-per-DateKey message and hands it
to the Notifier.  The skip rule and the rendering match the code, but the
hand-off does not: the `await sendToTelegram(message)` call on line 493 is
commented out, so for a result with non-empty availability the message is
composed and nothing is handed to the Notifier. -/
theorem reporter_never_notifies :
    composedMessages [("Room A", ScanOutcome.found [("05/03/2026", ["10:00", "14:30"])])]
      = ["🏠 <b>Room A</b>\n\nAvailable slots:\n\n<b>05/03/2026</b>: 10:00, 14:30"]
    ∧ composedMessages [("Room B", ScanOutcome.failed)] = []
    ∧ composedMessages [("Room C", ScanOutcome.found [])] = []
    ∧ notifierCalls [("Room A", ScanOutcome.found [("05/03/2026", ["10:00", "14:30"])])]
      = [] := by
  exact ⟨rfl, rfl, rfl, rfl⟩
